import Mathlib

/-
A shallow embedding of the linkheader crate: parsing of the HTTP Link header
field (RFC 8288) into a structured representation.  The definitions below are
translated from src/param.rs and src/parser.rs.  The pest tokenizer and the
url crate are external collaborators: tokenizer output is modelled as a tree
of tagged pairs, and URL parsing and joining are abstracted as an operations
record threaded through the reduction.
-/

namespace Linkheader

/-- Grammar rule tags produced by the tokenizer (pest rules used by the
reduction in src/parser.rs). -/
inductive Rule where
  | header
  | link
  | EOI
  | target
  | param
  | name
  | token_value
  | quoted_value
  | pct_value
  | encoding
  | language
deriving DecidableEq, Repr

/-- A tokenizer pair: a rule tag, the matched text, and the inner pairs.
Models pest::iterators::Pair as consumed by the reduction. -/
inductive Pair where
  | mk (rule : Rule) (text : String) (children : List Pair)

/-- Rule tag of a pair (models Pair::as_rule). -/
def Pair.rule : Pair → Rule
  | .mk r _ _ => r

/-- Matched text of a pair (models Pair::as_str). -/
def Pair.text : Pair → String
  | .mk _ t _ => t

/-- Inner pairs (models Pair::into_inner). -/
def Pair.children : Pair → List Pair
  | .mk _ _ c => c

/-- The character encoding of a compound value (src/param.rs). -/
inductive Encoding where
  | utf8
  | extension (text : String)
deriving DecidableEq, Repr

/-- A parameter value: simple text or an RFC 8187 compound value
(src/param.rs, enum Value).  Field order follows the source. -/
inductive Value where
  | simple (text : String)
  | compound (encoding : Encoding) (language : Option String) (value : String)
deriving DecidableEq, Repr

/-- A link param pair (src/param.rs, struct Param). -/
structure Param where
  name : String
  value : Option Value
deriving DecidableEq, Repr

/-- Opaque text wrapper for a target URI-reference (src/uri.rs). -/
structure UriRef where
  text : String
deriving DecidableEq, Repr

/-- A link relation type (src/link.rs, struct Relation). -/
structure Relation where
  text : String
deriving DecidableEq, Repr

/-- An absolute URL value produced by the external url crate.  Its internal
structure is never inspected by the reduction, only compared and stored. -/
structure Url where
  text : String
deriving DecidableEq, Repr

/-- Operations of the external url crate used by compose_context:
Url::parse and Url::join, each returning none on failure. -/
structure UrlOps where
  parseUrl : String → Option Url
  joinUrl : Url → String → Option Url

/-- A link to a target resource (the Link struct built in src/parser.rs:
target, context, relation, title, params). -/
structure Link where
  target : UriRef
  context : Option Url
  relation : Option Relation
  title : Option Value
  params : List Param
deriving DecidableEq, Repr

/-- A parsed header: an ordered sequence of links. -/
structure Header where
  links : List Link
deriving DecidableEq, Repr

/-- Failures of the reduction: returned errors (InvalidRule from the ensure
checks, DecodeError from RFC 8187 decoding) and panics (the unreachable
macro arms and expect calls, which do not return in the source). -/
inductive Failure where
  | invalidRule (expected given : Rule)
  | decodeError
  | panicked (message : String)
deriving DecidableEq, Repr

/- ===== String and byte helpers ===== -/

/-- ASCII lower-casing of a string, character by character, as Rust
str::to_lowercase acts on the ASCII charset tokens admitted by the RFC 8187
grammar. -/
def toLowerStr (s : String) : String :=
  String.mk (s.data.map Char.toLower)

/-- UTF-8 encoding of one Unicode scalar value, written with division and
remainder (numerically identical to the shift-and-mask form). -/
def utf8EncodeNat (n : Nat) : List Nat :=
  if n < 0x80 then [n]
  else if n < 0x800 then [0xC0 + n / 64, 0x80 + n % 64]
  else if n < 0x10000 then [0xE0 + n / 4096, 0x80 + n / 64 % 64, 0x80 + n % 64]
  else [0xF0 + n / 0x40000, 0x80 + n / 4096 % 64, 0x80 + n / 64 % 64, 0x80 + n % 64]

/-- UTF-8 encoding of a list of Unicode scalar values. -/
def utf8EncodeList : List Nat → List Nat
  | [] => []
  | n :: rest => utf8EncodeNat n ++ utf8EncodeList rest

/-- The UTF-8 bytes of a string, as Rust str::as_bytes. -/
def utf8Bytes (s : String) : List Nat :=
  utf8EncodeList (s.data.map Char.toNat)

/-- A Unicode scalar value: in range and not a surrogate. -/
def isScalar (n : Nat) : Bool :=
  decide (n < 0xD800 ∨ (0xE000 ≤ n ∧ n < 0x110000))

/-- A UTF-8 continuation byte. -/
def isCont (b : Nat) : Bool :=
  decide (0x80 ≤ b ∧ b < 0xC0)

/-- Admissible second byte of a three-byte sequence led by b (the strict
table used by core str validation: 0xE0 excludes overlong forms, 0xED
excludes surrogates). -/
def contRange3 (b b1 : Nat) : Bool :=
  decide ((b = 0xE0 → 0xA0 ≤ b1 ∧ b1 < 0xC0) ∧
    (b = 0xED → 0x80 ≤ b1 ∧ b1 < 0xA0) ∧
    (b ≠ 0xE0 → b ≠ 0xED → 0x80 ≤ b1 ∧ b1 < 0xC0))

/-- Admissible second byte of a four-byte sequence led by b (0xF0 excludes
overlong forms, 0xF4 caps at U+10FFFF). -/
def contRange4 (b b1 : Nat) : Bool :=
  decide ((b = 0xF0 → 0x90 ≤ b1 ∧ b1 < 0xC0) ∧
    (b = 0xF4 → 0x80 ≤ b1 ∧ b1 < 0x90) ∧
    (b ≠ 0xF0 → b ≠ 0xF4 → 0x80 ≤ b1 ∧ b1 < 0xC0))

/-- Decode one UTF-8 sequence starting at byte b, returning the scalar
value and the remaining bytes; none on any ill-formed sequence.  Mirrors
the strict validation performed by Rust str::from_utf8: one-byte sequences
below 0x80, two-byte sequences led by 0xC2 to 0xDF, three- and four-byte
sequences with the restricted second-byte tables excluding overlong forms,
surrogates and values above U+10FFFF. -/
def utf8DecodeOne (b : Nat) (rest : List Nat) : Option (Nat × List Nat) :=
  if b < 0x80 then some (b, rest)
  else if 0xC2 ≤ b ∧ b < 0xE0 then
    match rest with
    | b1 :: rest1 =>
      if isCont b1 then some ((b - 0xC0) * 64 + (b1 - 0x80), rest1) else none
    | [] => none
  else if 0xE0 ≤ b ∧ b < 0xF0 then
    match rest with
    | b1 :: b2 :: rest2 =>
      if contRange3 b b1 ∧ isCont b2 then
        some ((b - 0xE0) * 4096 + (b1 - 0x80) * 64 + (b2 - 0x80), rest2)
      else none
    | _ => none
  else if 0xF0 ≤ b ∧ b < 0xF5 then
    match rest with
    | b1 :: b2 :: b3 :: rest3 =>
      if contRange4 b b1 ∧ isCont b2 ∧ isCont b3 then
        some ((b - 0xF0) * 0x40000 + (b1 - 0x80) * 4096 + (b2 - 0x80) * 64 + (b3 - 0x80), rest3)
      else none
    | _ => none
  else none

/-- Fuel-indexed decoding loop over a byte list; the fuel only bounds the
recursion depth and is irrelevant once it reaches the list length, since
every step consumes at least one byte. -/
def utf8DecodeListFuel : Nat → List Nat → Option (List Nat)
  | _, [] => some []
  | 0, _ :: _ => none
  | fuel + 1, b :: rest =>
    match utf8DecodeOne b rest with
    | some (cp, rest2) => (utf8DecodeListFuel fuel rest2).map (fun cps => cp :: cps)
    | none => none

/-- Decode a byte list as strict UTF-8 into the list of scalar values;
none when the bytes are not valid UTF-8. -/
def utf8DecodeList (l : List Nat) : Option (List Nat) :=
  utf8DecodeListFuel l.length l

/-- Hexadecimal digit value of a byte (both letter cases), none otherwise. -/
def hexVal (b : Nat) : Option Nat :=
  if 48 ≤ b && b ≤ 57 then some (b - 48)
  else if 65 ≤ b && b ≤ 70 then some (b - 55)
  else if 97 ≤ b && b ≤ 102 then some (b - 87)
  else none

/-- Percent-decoding over bytes, as percent_encoding::percent_decode: a
percent byte followed by two hex digits decodes to one byte; otherwise the
percent byte passes through and scanning resumes at the next byte. -/
def percentDecodeBytes : List Nat → List Nat
  | b :: h1 :: h2 :: rest =>
    if b = 0x25 then
      match hexVal h1, hexVal h2 with
      | some x, some y => (16 * x + y) :: percentDecodeBytes rest
      | _, _ => b :: percentDecodeBytes (h1 :: h2 :: rest)
    else b :: percentDecodeBytes (h1 :: h2 :: rest)
  | l => l

/-- Membership in the percent_encoding DEFAULT_ENCODE_SET: controls and
non-ASCII (the simple set) plus space, double quote, hash, angle brackets,
question mark, backquote and curly braces. -/
def inDefaultEncodeSet (b : Nat) : Bool :=
  b < 0x20 || 0x7E < b || b = 0x20 || b = 0x22 || b = 0x23 || b = 0x3C ||
    b = 0x3E || b = 0x3F || b = 0x60 || b = 0x7B || b = 0x7D

/-- Upper-case hexadecimal digit character for a value below 16. -/
def hexDigitUpper (n : Nat) : Char :=
  if n < 10 then Char.ofNat (48 + n) else Char.ofNat (55 + n)

/-- Percent-encode the UTF-8 bytes of a string with the default encode set,
as percent_encoding::utf8_percent_encode with DEFAULT_ENCODE_SET. -/
def utf8PercentEncode (s : String) : String :=
  String.mk ((utf8Bytes s).foldr
    (fun b acc =>
      (if inDefaultEncodeSet b then
        [Char.ofNat 0x25, hexDigitUpper (b / 16), hexDigitUpper (b % 16)]
      else [Char.ofNat b]) ++ acc) [])

/-- Split a character list on spaces, keeping empty segments, as Rust
str::split with a single-space pattern. -/
def splitSpaceChars : List Char → List (List Char)
  | [] => [[]]
  | c :: rest =>
    let r := splitSpaceChars rest
    if c = ' ' then [] :: r
    else
      match r with
      | h :: t => (c :: h) :: t
      | [] => [[c]]

/-- Split a string on single spaces, keeping empty segments (Rust
str::split never drops segments). -/
def splitSpace (s : String) : List String :=
  (splitSpaceChars s.data).map String.mk

theorem splitSpaceChars_ne_nil (cs : List Char) : splitSpaceChars cs ≠ [] := by
  induction cs with
  | nil => simp [splitSpaceChars]
  | cons c rest ih =>
    simp only [splitSpaceChars]
    split
    · simp
    · match h : splitSpaceChars rest with
      | [] => exact absurd h ih
      | x :: xs => simp

theorem splitSpace_ne_nil (s : String) : splitSpace s ≠ [] := by
  simp only [splitSpace, ne_eq, List.map_eq_nil_iff]
  exact splitSpaceChars_ne_nil s.data

/- ===== Value and Encoding operations (src/param.rs) ===== -/

/-- Parsing of a charset token into an Encoding (impl From of str for
Encoding): lower-case the token; utf-8 is recognized, anything else becomes
an Extension holding the lower-cased token. -/
def Encoding.fromStr (s : String) : Encoding :=
  let sl := toLowerStr s
  if sl = "utf-8" then Encoding.utf8 else Encoding.extension sl

/-- Single quote character, used by the RFC 8187 wire form. -/
def squote : String :=
  String.mk [Char.ofNat 0x27]

/-- Wire form of an Encoding (impl Display for Encoding). -/
def Encoding.toString : Encoding → String
  | .utf8 => "UTF-8"
  | .extension ext => ext

/-- Wire form of a Value (impl Display for Value): a simple value prints
verbatim; a compound value prints as charset, quote, language, quote, value,
re-percent-encoding the value when the encoding is Utf8 and passing it
through verbatim otherwise. -/
def Value.toString : Value → String
  | .simple val => val
  | .compound encoding language value =>
    let val :=
      match encoding with
      | .utf8 => utf8PercentEncode value
      | _ => value
    Encoding.toString encoding ++ squote ++ language.getD "" ++ squote ++ val

/-- Modelled from the spec: Value::is_simple is called by
LinkBuilder::set_title but its definition is absent from src; per the title
rule of the spec it discriminates a Simple (title) value from a Compound
(title*) value. -/
def Value.is_simple : Value → Bool
  | .simple _ => true
  | .compound _ _ _ => false

/-- Modelled from the spec: Value::is_compound is called by
LinkBuilder::set_title but its definition is absent from src; per the title
rule of the spec it recognizes a Compound (title*) value. -/
def Value.is_compound : Value → Bool
  | .simple _ => false
  | .compound _ _ _ => true

/- ===== Context composition (src/parser.rs, compose_context) ===== -/

/-- Returns a context combined with the given anchor: with a base context
the anchor is joined against it, without one the anchor must parse as a
standalone absolute URL; failure gives no context. -/
def compose_context (ops : UrlOps) (context : Option Url) (anchor : String) : Option Url :=
  match context with
  | some ctx => ops.joinUrl ctx anchor
  | none => ops.parseUrl anchor

/- ===== Link builder (src/parser.rs, struct LinkBuilder) ===== -/

/-- Collects attributes and params for a set of links. -/
structure LinkBuilder where
  target : String
  context : Option Url
  anchored_context : Option Url
  relations : List String
  title : Option Value
  params : List Param
deriving DecidableEq, Repr

/-- LinkBuilder::new. -/
def LinkBuilder.new (context : Option Url) : LinkBuilder :=
  { target := ""
    context := context
    anchored_context := none
    title := none
    params := []
    relations := [] }

/-- LinkBuilder::set_target appends to the accumulated target text. -/
def LinkBuilder.set_target (b : LinkBuilder) (target : String) : LinkBuilder :=
  { b with target := b.target ++ target }

/-- LinkBuilder::set_anchor: while no anchored context has been obtained,
compose the anchor against the inherited context, keeping the anchor param
when composition fails; once an anchored context exists the anchor is kept
as a param. -/
def LinkBuilder.set_anchor (ops : UrlOps) (b : LinkBuilder) (value : Value) : LinkBuilder :=
  if b.anchored_context.isNone then
    let composed := compose_context ops b.context (Value.toString value)
    if composed.isNone then
      { b with
          anchored_context := composed
          params := b.params ++ [Param.mk "anchor" (some value)] }
    else { b with anchored_context := composed }
  else { b with params := b.params ++ [Param.mk "anchor" (some value)] }

/-- LinkBuilder::set_title: the first title value becomes the title; a
compound value arriving over a simple one demotes the simple value into
params and takes its place; any other arrival is demoted into params. -/
def LinkBuilder.set_title (b : LinkBuilder) (value : Value) : LinkBuilder :=
  match b.title with
  | some current_value =>
    if current_value.is_simple && value.is_compound then
      { b with
          params := b.params ++ [Param.mk "title" (some current_value)]
          title := some value }
    else { b with params := b.params ++ [Param.mk "title" (some value)] }
  | none => { b with title := some value }

/-- LinkBuilder::set_rel: takes a rel value and either sets it as a list of
rel tokens or keeps it as a parameter. -/
def LinkBuilder.set_rel (b : LinkBuilder) (value : Value) : LinkBuilder :=
  if b.relations.isEmpty then
    { b with relations := b.relations ++ splitSpace (Value.toString value) }
  else { b with params := b.params ++ [Param.mk "rel" (some value)] }

/-- LinkBuilder::add_param. -/
def LinkBuilder.add_param (b : LinkBuilder) (param : Param) : LinkBuilder :=
  { b with params := b.params ++ [param] }

/-- LinkBuilder::build: resolve the context as the anchored context when
present, else the inherited one; with no relations produce a single link
with no relation; otherwise push one link per relation token, in order,
replicating target, context, title and params. -/
def LinkBuilder.build (b : LinkBuilder) : List Link :=
  let context := b.anchored_context.or b.context
  if b.relations.isEmpty then
    [{ target := ⟨b.target⟩
       context := context
       relation := none
       title := b.title
       params := b.params }]
  else
    b.relations.foldl
      (fun result rel =>
        result ++
          [{ target := ⟨b.target⟩
             context := context
             relation := some ⟨rel⟩
             title := b.title
             params := b.params }]) []

/- ===== Param collection (src/parser.rs, collect_param) ===== -/

/-- Loop state of collect_param: accumulated name, value, encoding and
language. -/
structure ParamAcc where
  name : String
  value : Option Value
  encoding : Option Encoding
  language : Option String
deriving DecidableEq, Repr

/-- The loop of collect_param over the inner pairs of a param pair: name
text accumulates; token and quoted values become simple values; a
percent-encoded value is decoded when the seen encoding is Utf8 (failing
with a DecodeError on invalid UTF-8) and kept raw under any other encoding;
encoding and language pairs set the respective state.  A missing encoding
before a percent-encoded value and unknown tags are unreachable arms. -/
def collectParamLoop : List Pair → ParamAcc → Except Failure ParamAcc
  | [], acc => .ok acc
  | c :: rest, acc =>
    match c.rule with
    | .name => collectParamLoop rest { acc with name := acc.name ++ c.text }
    | .token_value =>
      collectParamLoop rest { acc with value := some (Value.simple c.text) }
    | .quoted_value =>
      collectParamLoop rest { acc with value := some (Value.simple c.text) }
    | .pct_value =>
      match acc.encoding with
      | some Encoding.utf8 =>
        match utf8DecodeList (percentDecodeBytes (utf8Bytes c.text)) with
        | some cps =>
          collectParamLoop rest
            { acc with
                value := some (Value.compound Encoding.utf8 acc.language
                  (String.mk (cps.map Char.ofNat))) }
        | none => .error .decodeError
      | some enc =>
        collectParamLoop rest
          { acc with value := some (Value.compound enc acc.language c.text) }
      | none => .error (.panicked "unreachable")
    | .encoding =>
      collectParamLoop rest { acc with encoding := some (Encoding.fromStr c.text) }
    | .language => collectParamLoop rest { acc with language := some c.text }
    | _ => .error (.panicked "unreachable")

/-- collect_param: requires a param pair, folds its inner pairs and returns
the collected param. -/
def collect_param (pair : Pair) : Except Failure Param :=
  if pair.rule = Rule.param then
    match collectParamLoop pair.children ⟨"", none, none, none⟩ with
    | .ok acc => .ok ⟨acc.name, acc.value⟩
    | .error e => .error e
  else .error (.invalidRule Rule.param pair.rule)

/- ===== Link collection (src/parser.rs, collect_links) ===== -/

/-- Dispatch of one collected param onto the builder, as the match inside
collect_links: a rel, anchor or title param with a present value goes to the
respective setter; everything else is added as an ordinary param. -/
def dispatchParam (ops : UrlOps) (b : LinkBuilder) (param : Param) : LinkBuilder :=
  match param.value with
  | some value =>
    if param.name = "rel" then b.set_rel value
    else if param.name = "anchor" then LinkBuilder.set_anchor ops b value
    else if param.name = "title" then b.set_title value
    else b.add_param param
  | none => b.add_param param

/-- Fold of dispatchParam over an already-collected param list. -/
def reduceParams (ops : UrlOps) (b : LinkBuilder) (ps : List Param) : LinkBuilder :=
  ps.foldl (dispatchParam ops) b

/-- The loop of collect_links over the inner pairs of a link pair: target
text goes to the builder, params are collected and dispatched, any other
tag is an unreachable arm. -/
def collectLinksLoop (ops : UrlOps) : List Pair → LinkBuilder → Except Failure LinkBuilder
  | [], b => .ok b
  | c :: rest, b =>
    match c.rule with
    | .target => collectLinksLoop ops rest (b.set_target c.text)
    | .param =>
      match collect_param c with
      | .ok p => collectLinksLoop ops rest (dispatchParam ops b p)
      | .error e => .error e
    | _ => .error (.panicked "unreachable")

/-- collect_links: requires a link pair, accumulates a builder over its
inner pairs and builds the exploded links. -/
def collect_links (ops : UrlOps) (pair : Pair) (context : Option Url) :
    Except Failure (List Link) :=
  if pair.rule = Rule.link then
    match collectLinksLoop ops pair.children (LinkBuilder.new context) with
    | .ok b => .ok b.build
    | .error e => .error e
  else .error (.invalidRule Rule.link pair.rule)

/- ===== Header collection and entry point (src/parser.rs) ===== -/

/-- The loop of collect_header over the inner pairs of a header pair: each
link pair contributes its exploded links in order, the end-of-input marker
is skipped, any other tag is an unreachable arm. -/
def collectHeaderLoop (ops : UrlOps) (context : Option Url) :
    List Pair → List Link → Except Failure (List Link)
  | [], links => .ok links
  | c :: rest, links =>
    match c.rule with
    | .link =>
      match collect_links ops c context with
      | .ok l => collectHeaderLoop ops context rest (links ++ l)
      | .error e => .error e
    | .EOI => collectHeaderLoop ops context rest links
    | _ => .error (.panicked "unreachable")

/-- collect_header: requires a header pair and concatenates the links of its
link pairs in document order. -/
def collect_header (ops : UrlOps) (pair : Pair) (context : Option Url) :
    Except Failure Header :=
  if pair.rule = Rule.header then
    match collectHeaderLoop ops context pair.children [] with
    | .ok links => .ok ⟨links⟩
    | .error e => .error e
  else .error (.invalidRule Rule.header pair.rule)

/-- Outcome of the top-level entry point: a returned header, a returned
error, or a panic (a non-returning failure in the source). -/
inductive ParseOutcome where
  | ok (header : Header)
  | err (failure : Failure)
  | panic (message : String)
deriving DecidableEq, Repr

/-- The top-level parse (src/parser.rs, fn parse): the raw header text goes
through the external tokenizer, whose result is taken here as input.  The
source unwraps the tokenizer result with expect, so a tokenizer error
panics with the message "unsuccessful parse"; on tokenizer success the
header pair is reduced, returning the header or the error, with the
unreachable arms surfacing as panics. -/
def parse (ops : UrlOps) (tokenized : Except String Pair) (context : Option Url) :
    ParseOutcome :=
  match tokenized with
  | .error _ => .panic "unsuccessful parse"
  | .ok pair =>
    match collect_header ops pair context with
    | .ok h => .ok h
    | .error (.panicked msg) => .panic msg
    | .error e => .err e

/- ===== Auxiliary definitions used by the theorems ===== -/

/-- Bool test for a param named rel. -/
def isRelName (p : Param) : Bool :=
  p.name == "rel"

/-- The value of the first rel param with a present value, the relation
source of the spec. -/
def firstRelValue : List Param → Option Value
  | [] => none
  | p :: rest =>
    if p.name = "rel" then
      match p.value with
      | some v => some v
      | none => firstRelValue rest
    else firstRelValue rest

/-- Drop the first param carrying a present value from a list, keeping
everything else. -/
def removeFirstWithValue : List Param → List Param
  | [] => []
  | p :: rest =>
    match p.value with
    | some _ => rest
    | none => p :: removeFirstWithValue rest

/-- A star (RFC 8187 extended) param pair as produced by the tokenizer:
name, charset, optional language and percent-encoded text. -/
def starParamPair (nm enc : String) (lang : Option String) (raw : String) : Pair :=
  .mk .param ""
    ([Pair.mk .name nm [], Pair.mk .encoding enc []] ++
      (match lang with
       | some l => [Pair.mk .language l []]
       | none => []) ++
      [Pair.mk .pct_value raw []])

/-- Concrete URL operations for concrete evaluations: one absolute URL is
recognized by parseUrl (as url::Url::parse accepts an absolute URL and
rejects a bare fragment), and joinUrl concatenates. -/
def sampleUrlOps : UrlOps where
  parseUrl s :=
    if s = "https://www.example.org/" then some (Url.mk "https://www.example.org/")
    else none
  joinUrl u a := some (Url.mk (u.text ++ a))

/-- Tokenizer output for a link with a duplicated rel param. -/
def relDupPair : Pair :=
  .mk .link "" [
    .mk .target "http://example.org/" [],
    .mk .param "" [.mk .name "rel" [], .mk .quoted_value "next" []],
    .mk .param "" [.mk .name "rel" [], .mk .quoted_value "wrong" []]]

/-- Tokenizer output for a header whose single link carries a star param
with percent-encoded bytes that are not valid UTF-8. -/
def badUtf8Header : Pair :=
  .mk .header "" [
    .mk .link "" [
      .mk .target "/x" [],
      .mk .param "" [.mk .name "title" [], .mk .encoding "UTF-8" [],
        .mk .pct_value "%FF" []]],
    .mk .EOI "" []]

/-- Two anchor params where the first does not compose against an absent
base and the second parses as an absolute URL. -/
def anchorRetryParams : List Param :=
  [Param.mk "anchor" (some (Value.simple "#foo")),
   Param.mk "anchor" (some (Value.simple "https://www.example.org/"))]

/-- The specification notion of valid UTF-8 text: the byte list is the
UTF-8 encoding of some sequence of Unicode scalar values. -/
def IsValidUtf8 (l : List Nat) : Prop :=
  ∃ cps : List Nat, (∀ c ∈ cps, isScalar c = true) ∧ utf8EncodeList cps = l

/- ===== Helper lemmas ===== -/

theorem foldl_append_singleton {α β : Type} (f : α → β) (l : List α) (acc : List β) :
    l.foldl (fun r a => r ++ [f a]) acc = acc ++ l.map f := by
  induction l generalizing acc with
  | nil => simp
  | cons x xs ih => simp [ih]

theorem set_anchor_relations (ops : UrlOps) (b : LinkBuilder) (v : Value) :
    (LinkBuilder.set_anchor ops b v).relations = b.relations := by
  unfold LinkBuilder.set_anchor
  cases h1 : b.anchored_context.isNone <;>
    cases h2 : (compose_context ops b.context (Value.toString v)).isNone <;>
      simp [h1, h2]

theorem set_anchor_title (ops : UrlOps) (b : LinkBuilder) (v : Value) :
    (LinkBuilder.set_anchor ops b v).title = b.title := by
  unfold LinkBuilder.set_anchor
  cases h1 : b.anchored_context.isNone <;>
    cases h2 : (compose_context ops b.context (Value.toString v)).isNone <;>
      simp [h1, h2]

theorem set_anchor_params (ops : UrlOps) (b : LinkBuilder) (v : Value) :
    (LinkBuilder.set_anchor ops b v).params = b.params ∨
      (LinkBuilder.set_anchor ops b v).params =
        b.params ++ [Param.mk "anchor" (some v)] := by
  unfold LinkBuilder.set_anchor
  cases h1 : b.anchored_context.isNone <;>
    cases h2 : (compose_context ops b.context (Value.toString v)).isNone <;>
      simp [h1, h2]

theorem set_title_relations (b : LinkBuilder) (v : Value) :
    (b.set_title v).relations = b.relations := by
  unfold LinkBuilder.set_title
  split <;> [split <;> rfl; rfl]

theorem set_title_params (b : LinkBuilder) (v : Value) :
    (b.set_title v).params = b.params ∨
      (b.set_title v).params = b.params ++ [Param.mk "title" (some v)] ∨
      ∃ cur, (b.set_title v).params = b.params ++ [Param.mk "title" (some cur)] := by
  unfold LinkBuilder.set_title
  split
  · split
    · right; right; exact ⟨_, rfl⟩
    · right; left; rfl
  · left; rfl

/- ===== Claim theorems ===== -/

/-- C1: build produces one output link per collected relation token, in the
order the tokens appeared, each sharing the same target, the same resolved
context (the anchored context when composition succeeded, else the inherited
base), the same title and an equal params sequence; with no relation ever
set it produces exactly one link with no relation. -/
theorem c1_build_explosion (b : LinkBuilder) :
    (b.relations = [] →
      b.build =
        [{ target := ⟨b.target⟩
           context := b.anchored_context.or b.context
           relation := none
           title := b.title
           params := b.params }]) ∧
    (b.relations ≠ [] →
      b.build =
        b.relations.map (fun rel =>
          { target := ⟨b.target⟩
            context := b.anchored_context.or b.context
            relation := some ⟨rel⟩
            title := b.title
            params := b.params })) := by
  constructor
  · intro h
    unfold LinkBuilder.build
    simp [h]
  · intro h
    unfold LinkBuilder.build
    rw [if_neg (by simpa [List.isEmpty_iff] using h)]
    exact foldl_append_singleton _ b.relations []

/-- Witness for C1 at concrete builders exercising both branches. -/
theorem c1_build_explosion_witness :
    (LinkBuilder.new none).build =
      [{ target := ⟨""⟩, context := none, relation := none, title := none, params := [] }] ∧
    ({ LinkBuilder.new none with relations := ["a", "b"] } : LinkBuilder).build =
      [{ target := ⟨""⟩, context := none, relation := some ⟨"a"⟩, title := none, params := [] },
       { target := ⟨""⟩, context := none, relation := some ⟨"b"⟩, title := none, params := [] }] := by
  constructor
  · exact (c1_build_explosion (LinkBuilder.new none)).1 rfl
  · rw [(c1_build_explosion _).2 (by decide)]
    decide

/-- C2: title resolution in the builder.  The first title value, simple or
compound, becomes the active title; a compound value arriving while a simple
one is active demotes the simple value into params as a title param and
becomes the active title; once a compound title is active, any further title
value, fed one by one or as a whole sequence, is demoted into params and
never displaces it. -/
theorem c2_title_precedence (b : LinkBuilder) (v : Value) :
    (b.title = none → b.set_title v = { b with title := some v }) ∧
    (∀ cur, b.title = some cur → cur.is_simple → v.is_compound →
      b.set_title v =
        { b with
            params := b.params ++ [Param.mk "title" (some cur)]
            title := some v }) ∧
    (∀ cur, b.title = some cur → cur.is_compound →
      b.set_title v = { b with params := b.params ++ [Param.mk "title" (some v)] }) ∧
    (∀ cur (vs : List Value), b.title = some cur → cur.is_compound →
      (vs.foldl LinkBuilder.set_title b).title = some cur) := by
  refine ⟨?_, ?_, ?_, ?_⟩
  · intro h
    unfold LinkBuilder.set_title
    rw [h]
  · intro cur hcur hs hc
    unfold LinkBuilder.set_title
    rw [hcur]
    simp [hs, hc]
  · intro cur hcur hc
    have hs : cur.is_simple = false := by
      cases cur <;> simp_all [Value.is_simple, Value.is_compound]
    unfold LinkBuilder.set_title
    rw [hcur]
    simp [hs]
  · intro cur vs hcur hc
    induction vs generalizing b with
    | nil => simpa using hcur
    | cons v2 rest ih =>
      have hs : cur.is_simple = false := by
        cases cur <;> simp_all [Value.is_simple, Value.is_compound]
      simp only [List.foldl_cons]
      apply ih
      unfold LinkBuilder.set_title
      rw [hcur]
      simp [hs]

/-- Witness for C2 at concrete builders and values covering all conjuncts. -/
theorem c2_title_precedence_witness :
    (LinkBuilder.new none).set_title (Value.simple "T") =
      { LinkBuilder.new none with title := some (Value.simple "T") } ∧
    ({ LinkBuilder.new none with title := some (Value.simple "T") } : LinkBuilder).set_title
        (Value.compound Encoding.utf8 (some "de") "T") =
      { LinkBuilder.new none with
          params := [Param.mk "title" (some (Value.simple "T"))]
          title := some (Value.compound Encoding.utf8 (some "de") "T") } ∧
    ({ LinkBuilder.new none with
        title := some (Value.compound Encoding.utf8 (some "de") "T") } : LinkBuilder).set_title
        (Value.simple "U") =
      { LinkBuilder.new none with
          title := some (Value.compound Encoding.utf8 (some "de") "T")
          params := [Param.mk "title" (some (Value.simple "U"))] } ∧
    (([Value.simple "U", Value.compound Encoding.utf8 none "W"] : List Value).foldl
        LinkBuilder.set_title
        { LinkBuilder.new none with
            title := some (Value.compound Encoding.utf8 (some "de") "T") }).title =
      some (Value.compound Encoding.utf8 (some "de") "T") := by
  refine ⟨?_, ?_, ?_, ?_⟩
  · exact (c2_title_precedence (LinkBuilder.new none) (Value.simple "T")).1 rfl
  · exact (c2_title_precedence _ _).2.1 (Value.simple "T") rfl (by decide) (by decide)
  · exact (c2_title_precedence _ (Value.simple "U")).2.2.1
      (Value.compound Encoding.utf8 (some "de") "T") rfl (by decide)
  · exact (c2_title_precedence _ (Value.simple "U")).2.2.2
      (Value.compound Encoding.utf8 (some "de") "T") _ rfl (by decide)

/-- C4 counterexample: with no base context, a first anchor that fails to
compose is kept as a param, but a second anchor then still attempts
composition; here it succeeds, becomes the anchored context and is not
retained in params, against the claim that every subsequent anchor
occurrence is always retained regardless of the first outcome. -/
theorem c4_counterexample :
    (reduceParams sampleUrlOps (LinkBuilder.new none) anchorRetryParams).params =
      [Param.mk "anchor" (some (Value.simple "#foo"))] ∧
    (reduceParams sampleUrlOps (LinkBuilder.new none) anchorRetryParams).anchored_context =
      some (Url.mk "https://www.example.org/") ∧
    Param.mk "anchor" (some (Value.simple "https://www.example.org/")) ∉
      (reduceParams sampleUrlOps (LinkBuilder.new none) anchorRetryParams).params := by
  refine ⟨by decide, by decide, by decide⟩

/-- C4 as amended: every anchor param with a present value attempts context
composition as long as no earlier composition succeeded; a failed
composition keeps the anchor as an opaque param, with no error raised; once
an anchored context exists, each further anchor is kept as an opaque
param. -/
theorem c4_anchor_policy (ops : UrlOps) (b : LinkBuilder) (v : Value) :
    (b.anchored_context = none →
      compose_context ops b.context (Value.toString v) = none →
      LinkBuilder.set_anchor ops b v =
        { b with params := b.params ++ [Param.mk "anchor" (some v)] }) ∧
    (∀ u, b.anchored_context = none →
      compose_context ops b.context (Value.toString v) = some u →
      LinkBuilder.set_anchor ops b v = { b with anchored_context := some u }) ∧
    (∀ u, b.anchored_context = some u →
      LinkBuilder.set_anchor ops b v =
        { b with params := b.params ++ [Param.mk "anchor" (some v)] }) := by
  refine ⟨?_, ?_, ?_⟩
  · intro h1 h2
    unfold LinkBuilder.set_anchor
    simp [h1, h2]
  · intro u h1 h2
    unfold LinkBuilder.set_anchor
    simp [h1, h2]
  · intro u h1
    unfold LinkBuilder.set_anchor
    simp [h1]

/-- Witness for C4 as amended, at the two concrete anchors of the
counterexample scenario and a builder that already holds an anchored
context. -/
theorem c4_anchor_policy_witness :
    LinkBuilder.set_anchor sampleUrlOps (LinkBuilder.new none) (Value.simple "#foo") =
      { LinkBuilder.new none with
          params := [Param.mk "anchor" (some (Value.simple "#foo"))] } ∧
    LinkBuilder.set_anchor sampleUrlOps (LinkBuilder.new none)
        (Value.simple "https://www.example.org/") =
      { LinkBuilder.new none with
          anchored_context := some (Url.mk "https://www.example.org/") } ∧
    LinkBuilder.set_anchor sampleUrlOps
        ({ LinkBuilder.new none with
            anchored_context := some (Url.mk "https://www.example.org/") })
        (Value.simple "#bar") =
      { LinkBuilder.new none with
          anchored_context := some (Url.mk "https://www.example.org/")
          params := [Param.mk "anchor" (some (Value.simple "#bar"))] } := by
  refine ⟨?_, ?_, ?_⟩
  · exact (c4_anchor_policy sampleUrlOps (LinkBuilder.new none) (Value.simple "#foo")).1
      rfl (by decide)
  · exact (c4_anchor_policy sampleUrlOps (LinkBuilder.new none)
      (Value.simple "https://www.example.org/")).2.1 _ rfl (by decide)
  · exact (c4_anchor_policy sampleUrlOps _ (Value.simple "#bar")).2.2
      (Url.mk "https://www.example.org/") rfl

/-- C6: the wire form of a compound value is charset, quote, language
(empty when absent), quote, value, where a Utf8 value is re-percent-encoded
with the default encode set and an Extension value passes through verbatim;
in particular the Utf8 compound value GBP with a pound sign under language
en prints as the RFC 8187 example form. -/
theorem c6_compound_display :
    Value.toString (Value.compound Encoding.utf8 (some "en") "GBP (£)") =
      "UTF-8" ++ squote ++ "en" ++ squote ++ "GBP%20(%C2%A3)" ∧
    (∀ ext lang v,
      Value.toString (Value.compound (Encoding.extension ext) lang v) =
        ext ++ squote ++ lang.getD "" ++ squote ++ v) ∧
    (∀ lang v,
      Value.toString (Value.compound Encoding.utf8 lang v) =
        "UTF-8" ++ squote ++ lang.getD "" ++ squote ++ utf8PercentEncode v) := by
  refine ⟨by decide, fun ext lang v => rfl, fun lang v => rfl⟩

/-- C7: the entry point does not return tokenizer-level syntax errors to
the caller; the source unwraps the tokenizer result with expect, so every
tokenizer error becomes a panic with the message "unsuccessful parse"
instead of a returned error value. -/
theorem c7_tokenizer_error_panics :
    parse sampleUrlOps (Except.error "expected header") none =
      ParseOutcome.panic "unsuccessful parse" ∧
    (∀ (e : String) (ctx : Option Url),
      parse sampleUrlOps (Except.error e) ctx =
        ParseOutcome.panic "unsuccessful parse") := by
  exact ⟨rfl, fun e ctx => rfl⟩

/-- C8 counterexample: a rel value with consecutive spaces yields an
empty-string relation token, so build produces a link whose relation is the
empty string, against the claim that empty tokens are dropped. -/
theorem c8_counterexample :
    (((LinkBuilder.new none).set_rel (Value.simple "a  b")).build).map Link.relation =
      [some ⟨"a"⟩, some ⟨""⟩, some ⟨"b"⟩] := by
  decide

/-- C8 as amended: the first rel value is split on single ASCII spaces with
empty segments kept, so the output links carry exactly the split segments,
in order, as their relations, including empty-string relations for leading,
trailing or consecutive spaces. -/
theorem c8_relation_tokens_kept (b : LinkBuilder) (v : Value)
    (h : b.relations = []) :
    ((b.set_rel v).build).map Link.relation =
      (splitSpace (Value.toString v)).map (fun s => some ⟨s⟩) := by
  have hrel : (b.set_rel v).relations = splitSpace (Value.toString v) := by
    unfold LinkBuilder.set_rel
    simp [h, List.isEmpty_iff]
  have hne : (b.set_rel v).relations ≠ [] := by
    rw [hrel]; exact splitSpace_ne_nil _
  rw [(c1_build_explosion _).2 hne, hrel, List.map_map]
  rfl

/-- Witness for C8 as amended at a fresh builder and a spaced rel value. -/
theorem c8_relation_tokens_kept_witness :
    (((LinkBuilder.new none).set_rel (Value.simple " x  y ")).build).map Link.relation =
      (splitSpace " x  y ").map (fun s => some ⟨s⟩) := by
  exact c8_relation_tokens_kept (LinkBuilder.new none) (Value.simple " x  y ") rfl

/-- C9 counterexample: a param named REL with a present value is not
classified by the rel rule; it leaves the relations empty and is appended
to params as an ordinary opaque param, against the claim that
classification happens on the lower-cased name. -/
theorem c9_counterexample :
    dispatchParam sampleUrlOps (LinkBuilder.new none)
        (Param.mk "REL" (some (Value.simple "next"))) =
      { LinkBuilder.new none with
          params := [Param.mk "REL" (some (Value.simple "next"))] } ∧
    (reduceParams sampleUrlOps (LinkBuilder.new none)
        [Param.mk "REL" (some (Value.simple "next"))]).relations = [] := by
  exact ⟨by decide, by decide⟩

/-- C9 as amended: param classification is by exact, case-sensitive name;
any param whose name is not exactly rel, anchor or title, including
case-variants such as REL or Title, is appended to params as an ordinary
opaque param. -/
theorem c9_exact_name_dispatch (ops : UrlOps) (b : LinkBuilder) (p : Param)
    (h1 : p.name ≠ "rel") (h2 : p.name ≠ "anchor") (h3 : p.name ≠ "title") :
    dispatchParam ops b p = b.add_param p := by
  unfold dispatchParam
  cases hv : p.value <;> simp [h1, h2, h3]

/-- Witness for C9 as amended at the upper-cased names REL and Title. -/
theorem c9_exact_name_dispatch_witness :
    dispatchParam sampleUrlOps (LinkBuilder.new none)
        (Param.mk "REL" (some (Value.simple "next"))) =
      (LinkBuilder.new none).add_param (Param.mk "REL" (some (Value.simple "next"))) ∧
    dispatchParam sampleUrlOps (LinkBuilder.new none)
        (Param.mk "Title" (some (Value.simple "T"))) =
      (LinkBuilder.new none).add_param (Param.mk "Title" (some (Value.simple "T"))) := by
  constructor
  · exact c9_exact_name_dispatch sampleUrlOps (LinkBuilder.new none)
      (Param.mk "REL" (some (Value.simple "next")))
      (by decide) (by decide) (by decide)
  · exact c9_exact_name_dispatch sampleUrlOps (LinkBuilder.new none)
      (Param.mk "Title" (some (Value.simple "T")))
      (by decide) (by decide) (by decide)

/-- C10: a reserved-name param with an absent value is appended to params
as an ordinary opaque param with no value, leaving target, relations,
anchored context and title untouched, and a later occurrence of the same
name with a present value is still handled by its reserved rule; concretely
a bare rel followed by a valued rel still sets the relation. -/
theorem c10_bare_reserved_param (ops : UrlOps) (b : LinkBuilder) (p : Param)
    (h : p.value = none) :
    dispatchParam ops b p = b.add_param p ∧
    (reduceParams sampleUrlOps (LinkBuilder.new none)
        [Param.mk "rel" none, Param.mk "rel" (some (Value.simple "next"))]).relations =
      ["next"] ∧
    (reduceParams sampleUrlOps (LinkBuilder.new none)
        [Param.mk "rel" none, Param.mk "rel" (some (Value.simple "next"))]).params =
      [Param.mk "rel" none] := by
  refine ⟨?_, by decide, by decide⟩
  unfold dispatchParam
  rw [h]

/-- Witness for C10 at a concrete bare anchor param. -/
theorem c10_bare_reserved_param_witness :
    dispatchParam sampleUrlOps (LinkBuilder.new none) (Param.mk "anchor" none) =
      (LinkBuilder.new none).add_param (Param.mk "anchor" none) := by
  exact (c10_bare_reserved_param sampleUrlOps (LinkBuilder.new none)
    (Param.mk "anchor" none) rfl).1

theorem dispatch_relations (ops : UrlOps) (b : LinkBuilder) (p : Param) :
    (dispatchParam ops b p).relations =
      (match p.value with
       | some v =>
         if p.name = "rel" then
           (if b.relations = [] then splitSpace (Value.toString v) else b.relations)
         else b.relations
       | none => b.relations) := by
  obtain ⟨pn, pv⟩ := p
  unfold dispatchParam
  cases pv with
  | none => rfl
  | some v =>
    by_cases h1 : pn = "rel"
    · subst h1
      simp only [if_pos rfl]
      unfold LinkBuilder.set_rel
      by_cases h2 : LinkBuilder.relations b = []
      · simp [List.isEmpty_iff, h2]
      · simp [List.isEmpty_iff, h2]
    · by_cases h2 : pn = "anchor"
      · simp [h1, h2, set_anchor_relations]
      · by_cases h3 : pn = "title"
        · simp [h1, h2, h3, set_title_relations]
        · simp [h1, h2, h3, LinkBuilder.add_param]

theorem dispatch_params_filterRel (ops : UrlOps) (b : LinkBuilder) (p : Param) :
    (dispatchParam ops b p).params.filter isRelName =
      b.params.filter isRelName ++
        (if p.name = "rel" then
          (match p.value with
           | some _ => if b.relations = [] then [] else [p]
           | none => [p])
         else []) := by
  obtain ⟨pn, pv⟩ := p
  unfold dispatchParam
  cases pv with
  | none =>
    by_cases h : pn = "rel" <;>
      simp [LinkBuilder.add_param, List.filter_append, isRelName, h]
  | some v =>
    by_cases h1 : pn = "rel"
    · subst h1
      simp only [if_pos rfl]
      unfold LinkBuilder.set_rel
      by_cases h2 : LinkBuilder.relations b = []
      · simp [List.isEmpty_iff, h2]
      · simp [List.isEmpty_iff, h2, List.filter_append, isRelName]
    · by_cases h2 : pn = "anchor"
      · simp only [h1, h2, if_true, if_false]
        rcases set_anchor_params ops b (Value.simple v.toString) with h | h
        · rcases set_anchor_params ops b v with ha | ha <;>
            simp [ha, List.filter_append, isRelName]
        · rcases set_anchor_params ops b v with ha | ha <;>
            simp [ha, List.filter_append, isRelName]
      · by_cases h3 : pn = "title"
        · simp only [h1, h2, h3, if_true, if_false]
          rcases set_title_params b v with ht | ht | ⟨cur, ht⟩ <;>
            simp [ht, List.filter_append, isRelName]
        · simp [h1, h2, h3, LinkBuilder.add_param, List.filter_append, isRelName]

theorem reduceParams_relations (ops : UrlOps) (ps : List Param) (b : LinkBuilder) :
    (reduceParams ops b ps).relations =
      if b.relations = [] then
        (match firstRelValue ps with
         | some v => splitSpace (Value.toString v)
         | none => [])
      else b.relations := by
  induction ps generalizing b with
  | nil =>
    by_cases h : b.relations = [] <;> simp [reduceParams, firstRelValue, h]
  | cons p rest ih =>
    obtain ⟨pn, pv⟩ := p
    have step : reduceParams ops b (⟨pn, pv⟩ :: rest) =
        reduceParams ops (dispatchParam ops b ⟨pn, pv⟩) rest := rfl
    rw [step, ih]
    rw [dispatch_relations]
    cases pv with
    | none =>
      by_cases h1 : pn = "rel" <;> simp [firstRelValue, h1]
    | some v =>
      by_cases h1 : pn = "rel"
      · subst h1
        by_cases h2 : b.relations = []
        · simp [h2, firstRelValue, splitSpace_ne_nil]
        · simp [h2, firstRelValue]
      · simp [h1, firstRelValue]

theorem reduceParams_params_filterRel (ops : UrlOps) (ps : List Param) (b : LinkBuilder) :
    (reduceParams ops b ps).params.filter isRelName =
      b.params.filter isRelName ++
        (if b.relations = [] then removeFirstWithValue (ps.filter isRelName)
         else ps.filter isRelName) := by
  induction ps generalizing b with
  | nil =>
    by_cases h : b.relations = [] <;> simp [reduceParams, removeFirstWithValue, h]
  | cons p rest ih =>
    obtain ⟨pn, pv⟩ := p
    have step : reduceParams ops b (⟨pn, pv⟩ :: rest) =
        reduceParams ops (dispatchParam ops b ⟨pn, pv⟩) rest := rfl
    rw [step, ih, dispatch_params_filterRel, dispatch_relations]
    cases pv with
    | none =>
      by_cases h1 : pn = "rel"
      · subst h1
        by_cases h2 : b.relations = [] <;>
          simp [h2, isRelName, removeFirstWithValue, List.filter_append]
      · by_cases h2 : b.relations = [] <;>
          simp [h1, h2, isRelName, List.filter_append]
    | some v =>
      by_cases h1 : pn = "rel"
      · subst h1
        by_cases h2 : b.relations = []
        · simp [h2, isRelName, removeFirstWithValue, splitSpace_ne_nil]
        · simp [h2, isRelName, removeFirstWithValue, List.filter_append]
      · by_cases h2 : b.relations = [] <;>
          simp [h1, h2, isRelName, List.filter_append]

/-- C3: the first rel param with a present value is the relation source:
the relations collected for a link are exactly the space-split tokens of
that value, and the rel params retained in the output params are exactly
all rel occurrences except that first valued one, kept verbatim; in
particular the duplicated-rel link keeps relation next and retains the
second rel as an opaque param. -/
theorem c3_first_rel_wins (ops : UrlOps) (ctx : Option Url) (ps : List Param) :
    ((reduceParams ops (LinkBuilder.new ctx) ps).relations =
      (match firstRelValue ps with
       | some v => splitSpace (Value.toString v)
       | none => [])) ∧
    ((reduceParams ops (LinkBuilder.new ctx) ps).params.filter isRelName =
      removeFirstWithValue (ps.filter isRelName)) ∧
    collect_links sampleUrlOps relDupPair none =
      .ok [{ target := ⟨"http://example.org/"⟩
             context := none
             relation := some ⟨"next"⟩
             title := none
             params := [Param.mk "rel" (some (Value.simple "wrong"))] }] := by
  refine ⟨?_, ?_, by rfl⟩
  · rw [reduceParams_relations]
    simp [LinkBuilder.new]
  · rw [reduceParams_params_filterRel]
    simp [LinkBuilder.new]

theorem utf8DecodeOne_length {b : Nat} {rest rest2 : List Nat} {cp : Nat}
    (h : utf8DecodeOne b rest = some (cp, rest2)) : rest2.length ≤ rest.length := by
  unfold utf8DecodeOne at h
  repeat' split at h
  all_goals try simp_all
  all_goals omega

theorem utf8DecodeOne_sound {b cp : Nat} {rest rest2 : List Nat}
    (h : utf8DecodeOne b rest = some (cp, rest2)) :
    isScalar cp = true ∧ utf8EncodeNat cp ++ rest2 = b :: rest := by
  unfold utf8DecodeOne at h
  repeat' split at h
  all_goals try exact Option.noConfusion h
  all_goals
    simp only [Option.some.injEq, Prod.mk.injEq] at h
  all_goals
    obtain ⟨rfl, rfl⟩ := h
  all_goals
    simp only [isScalar, isCont, contRange3, contRange4, decide_eq_true_eq] at *
  · refine ⟨by omega, ?_⟩
    unfold utf8EncodeNat
    rw [if_pos (by omega)]
    simp
  · refine ⟨by omega, ?_⟩
    unfold utf8EncodeNat
    rw [if_neg (by omega), if_pos (by omega)]
    simp only [List.cons_append, List.nil_append, List.cons.injEq]
    refine ⟨by omega, by omega, trivial⟩
  · refine ⟨by omega, ?_⟩
    unfold utf8EncodeNat
    rw [if_neg (by omega), if_neg (by omega), if_pos (by omega)]
    simp only [List.cons_append, List.nil_append, List.cons.injEq]
    refine ⟨by omega, by omega, by omega, trivial⟩
  · refine ⟨by omega, ?_⟩
    unfold utf8EncodeNat
    rw [if_neg (by omega), if_neg (by omega), if_neg (by omega)]
    simp only [List.cons_append, List.nil_append, List.cons.injEq]
    refine ⟨by omega, by omega, by omega, by omega, trivial⟩

theorem utf8DecodeOne_one (b : Nat) (r : List Nat) (h1 : b < 0x80) :
    utf8DecodeOne b r = some (b, r) := by
  unfold utf8DecodeOne
  rw [if_pos h1]

theorem utf8DecodeOne_two (b b1 : Nat) (r : List Nat)
    (hr : 0xC2 ≤ b ∧ b < 0xE0) (hc : isCont b1 = true) :
    utf8DecodeOne b (b1 :: r) = some ((b - 0xC0) * 64 + (b1 - 0x80), r) := by
  unfold utf8DecodeOne
  rw [if_neg (by omega), if_pos hr]
  simp [hc]

theorem utf8DecodeOne_three (b b1 b2 : Nat) (r : List Nat)
    (hr : 0xE0 ≤ b ∧ b < 0xF0) (hc1 : contRange3 b b1 = true) (hc2 : isCont b2 = true) :
    utf8DecodeOne b (b1 :: b2 :: r) =
      some ((b - 0xE0) * 4096 + (b1 - 0x80) * 64 + (b2 - 0x80), r) := by
  unfold utf8DecodeOne
  rw [if_neg (by omega), if_neg (by omega), if_pos hr]
  simp [hc1, hc2]

theorem utf8DecodeOne_four (b b1 b2 b3 : Nat) (r : List Nat)
    (hr : 0xF0 ≤ b ∧ b < 0xF5) (hc1 : contRange4 b b1 = true)
    (hc2 : isCont b2 = true) (hc3 : isCont b3 = true) :
    utf8DecodeOne b (b1 :: b2 :: b3 :: r) =
      some ((b - 0xF0) * 0x40000 + (b1 - 0x80) * 4096 + (b2 - 0x80) * 64 + (b3 - 0x80), r) := by
  unfold utf8DecodeOne
  rw [if_neg (by omega), if_neg (by omega), if_neg (by omega), if_pos hr]
  simp [hc1, hc2, hc3]

theorem utf8DecodeListFuel_irrel :
    ∀ (f1 f2 : Nat) (l : List Nat), l.length ≤ f1 → l.length ≤ f2 →
      utf8DecodeListFuel f1 l = utf8DecodeListFuel f2 l := by
  intro f1
  induction f1 with
  | zero =>
    intro f2 l h1 h2
    match l, h1 with
    | [], _ => cases f2 <;> rfl
  | succ f1 ih =>
    intro f2 l h1 h2
    match l with
    | [] => cases f2 <;> rfl
    | b :: rest =>
      match f2, h2 with
      | f2 + 1, h2 =>
        simp only [utf8DecodeListFuel]
        cases hd : utf8DecodeOne b rest with
        | none => rfl
        | some pr =>
          obtain ⟨cp, rest2⟩ := pr
          have hlen := utf8DecodeOne_length hd
          simp only [List.length_cons] at h1 h2
          simp only [ih f2 rest2 (by omega) (by omega)]

theorem utf8DecodeList_cons (b : Nat) (rest : List Nat) :
    utf8DecodeList (b :: rest) =
      (match utf8DecodeOne b rest with
       | some (cp, rest2) => (utf8DecodeList rest2).map (fun cps => cp :: cps)
       | none => none) := by
  unfold utf8DecodeList
  simp only [List.length_cons, utf8DecodeListFuel]
  cases hd : utf8DecodeOne b rest with
  | none => rfl
  | some pr =>
    obtain ⟨cp, rest2⟩ := pr
    have hlen := utf8DecodeOne_length hd
    simp only [utf8DecodeListFuel_irrel rest.length rest2.length rest2 (by omega) (by omega)]

theorem utf8DecodeList_sound_aux :
    ∀ (n : Nat) (l : List Nat), l.length ≤ n → ∀ cps, utf8DecodeList l = some cps →
      (∀ c ∈ cps, isScalar c = true) ∧ utf8EncodeList cps = l := by
  intro n
  induction n with
  | zero =>
    intro l hl cps h
    match l, hl with
    | [], _ =>
      simp only [utf8DecodeList, utf8DecodeListFuel, Option.some.injEq] at h
      subst h
      exact ⟨by simp, rfl⟩
  | succ n ih =>
    intro l hl cps h
    match l with
    | [] =>
      simp only [utf8DecodeList, utf8DecodeListFuel, Option.some.injEq] at h
      subst h
      exact ⟨by simp, rfl⟩
    | b :: rest =>
      rw [utf8DecodeList_cons] at h
      cases hd : utf8DecodeOne b rest with
      | none =>
        simp only [hd] at h
        exact Option.noConfusion h
      | some pr =>
        obtain ⟨cp, rest2⟩ := pr
        simp only [hd, Option.map_eq_some'] at h
        obtain ⟨cps2, hd2, rfl⟩ := h
        obtain ⟨hsc, henc⟩ := utf8DecodeOne_sound hd
        have hlen := utf8DecodeOne_length hd
        simp only [List.length_cons] at hl
        obtain ⟨hsc2, henc2⟩ := ih rest2 (by omega) cps2 hd2
        refine ⟨?_, ?_⟩
        · intro c hc
          rcases List.mem_cons.mp hc with rfl | hc2
          · exact hsc
          · exact hsc2 c hc2
        · simp only [utf8EncodeList, henc2]
          exact henc

theorem utf8DecodeList_sound {l cps : List Nat} (h : utf8DecodeList l = some cps) :
    (∀ c ∈ cps, isScalar c = true) ∧ utf8EncodeList cps = l :=
  utf8DecodeList_sound_aux l.length l (Nat.le_refl _) cps h

theorem utf8DecodeList_complete (cps : List Nat) (h : ∀ c ∈ cps, isScalar c = true) :
    utf8DecodeList (utf8EncodeList cps) = some cps := by
  induction cps with
  | nil => rfl
  | cons n rest ih =>
    have hn : isScalar n = true := h n (List.mem_cons_self _ _)
    have hrest := ih (fun c hc => h c (List.mem_cons_of_mem _ hc))
    simp only [utf8EncodeList]
    simp only [isScalar, decide_eq_true_eq] at hn
    by_cases h1 : n < 0x80
    · have he : utf8EncodeNat n = [n] := by unfold utf8EncodeNat; rw [if_pos h1]
      rw [he, List.singleton_append, utf8DecodeList_cons]
      simp only [utf8DecodeOne_one _ _ h1, hrest, Option.map_some']
    · by_cases h2 : n < 0x800
      · have he : utf8EncodeNat n = [0xC0 + n / 64, 0x80 + n % 64] := by
          unfold utf8EncodeNat; rw [if_neg h1, if_pos h2]
        have hdec : utf8DecodeOne (0xC0 + n / 64) ((0x80 + n % 64) :: utf8EncodeList rest) =
            some (n, utf8EncodeList rest) := by
          rw [utf8DecodeOne_two _ _ _ ⟨by omega, by omega⟩
            (by simp only [isCont, decide_eq_true_eq]; omega)]
          simp only [Option.some.injEq, Prod.mk.injEq]
          exact ⟨by omega, trivial⟩
        rw [he]
        simp only [List.cons_append, List.nil_append]
        rw [utf8DecodeList_cons]
        simp only [hdec, hrest, Option.map_some']
      · by_cases h3 : n < 0x10000
        · have he : utf8EncodeNat n =
              [0xE0 + n / 4096, 0x80 + n / 64 % 64, 0x80 + n % 64] := by
            unfold utf8EncodeNat; rw [if_neg h1, if_neg h2, if_pos h3]
          have hdec : utf8DecodeOne (0xE0 + n / 4096)
              ((0x80 + n / 64 % 64) :: (0x80 + n % 64) :: utf8EncodeList rest) =
              some (n, utf8EncodeList rest) := by
            rw [utf8DecodeOne_three _ _ _ _ ⟨by omega, by omega⟩
              (by simp only [contRange3, decide_eq_true_eq]; omega)
              (by simp only [isCont, decide_eq_true_eq]; omega)]
            simp only [Option.some.injEq, Prod.mk.injEq]
            exact ⟨by omega, trivial⟩
          rw [he]
          simp only [List.cons_append, List.nil_append]
          rw [utf8DecodeList_cons]
          simp only [hdec, hrest, Option.map_some']
        · have he : utf8EncodeNat n =
              [0xF0 + n / 0x40000, 0x80 + n / 4096 % 64, 0x80 + n / 64 % 64, 0x80 + n % 64] := by
            unfold utf8EncodeNat; rw [if_neg h1, if_neg h2, if_neg h3]
          have hdec : utf8DecodeOne (0xF0 + n / 0x40000)
              ((0x80 + n / 4096 % 64) :: (0x80 + n / 64 % 64) :: (0x80 + n % 64) ::
                utf8EncodeList rest) =
              some (n, utf8EncodeList rest) := by
            rw [utf8DecodeOne_four _ _ _ _ _ ⟨by omega, by omega⟩
              (by simp only [contRange4, decide_eq_true_eq]; omega)
              (by simp only [isCont, decide_eq_true_eq]; omega)
              (by simp only [isCont, decide_eq_true_eq]; omega)]
            simp only [Option.some.injEq, Prod.mk.injEq]
            exact ⟨by omega, trivial⟩
          rw [he]
          simp only [List.cons_append, List.nil_append]
          rw [utf8DecodeList_cons]
          simp only [hdec, hrest, Option.map_some']

theorem utf8DecodeList_none_iff (l : List Nat) :
    utf8DecodeList l = none ↔ ¬ IsValidUtf8 l := by
  constructor
  · intro hnone hv
    obtain ⟨cps, hsc, henc⟩ := hv
    have hc := utf8DecodeList_complete cps hsc
    rw [henc] at hc
    rw [hc] at hnone
    exact Option.noConfusion hnone
  · intro hnv
    cases hd : utf8DecodeList l with
    | none => rfl
    | some cps =>
      obtain ⟨hsc, henc⟩ := utf8DecodeList_sound hd
      exact absurd ⟨cps, hsc, henc⟩ hnv

/-- C5: decoding of RFC 8187 extended (star) values.  When the charset
token equals utf-8 up to ASCII case, the percent-encoded text is
percent-decoded and collection fails with a DecodeError exactly when the
decoded bytes are not valid UTF-8; under any other charset the raw, still
percent-encoded text is stored unmodified, tagged with the lower-cased
extension charset; and a decode failure makes the whole parse fail with
the error, returning no partial header. -/
theorem c5_star_value_decoding (nm enc : String) (lang : Option String) (raw : String) :
    (toLowerStr enc = "utf-8" →
      collect_param (starParamPair nm enc lang raw) =
        (match utf8DecodeList (percentDecodeBytes (utf8Bytes raw)) with
         | some cps =>
           .ok ⟨nm, some (Value.compound Encoding.utf8 lang (String.mk (cps.map Char.ofNat)))⟩
         | none => .error Failure.decodeError)) ∧
    (toLowerStr enc = "utf-8" →
      (collect_param (starParamPair nm enc lang raw) = .error Failure.decodeError ↔
        ¬ IsValidUtf8 (percentDecodeBytes (utf8Bytes raw)))) ∧
    (toLowerStr enc ≠ "utf-8" →
      collect_param (starParamPair nm enc lang raw) =
        .ok ⟨nm, some (Value.compound (Encoding.extension (toLowerStr enc)) lang raw)⟩) ∧
    parse sampleUrlOps (Except.ok badUtf8Header) none =
      ParseOutcome.err Failure.decodeError := by
  have ha : toLowerStr enc = "utf-8" →
      collect_param (starParamPair nm enc lang raw) =
        (match utf8DecodeList (percentDecodeBytes (utf8Bytes raw)) with
         | some cps =>
           .ok ⟨nm, some (Value.compound Encoding.utf8 lang (String.mk (cps.map Char.ofNat)))⟩
         | none => .error Failure.decodeError) := by
    intro henc
    have hfrom : Encoding.fromStr enc = Encoding.utf8 := by
      simp [Encoding.fromStr, henc]
    cases lang with
    | none =>
      simp only [collect_param, starParamPair, collectParamLoop, Pair.rule, Pair.children,
        Pair.text, hfrom, List.cons_append, List.nil_append]
      cases hdec : utf8DecodeList (percentDecodeBytes (utf8Bytes raw)) <;> simp [hdec]
    | some l =>
      simp only [collect_param, starParamPair, collectParamLoop, Pair.rule, Pair.children,
        Pair.text, hfrom, List.cons_append, List.nil_append]
      cases hdec : utf8DecodeList (percentDecodeBytes (utf8Bytes raw)) <;> simp [hdec]
  refine ⟨ha, ?_, ?_, ?_⟩
  · intro henc
    rw [ha henc]
    cases hdec : utf8DecodeList (percentDecodeBytes (utf8Bytes raw)) with
    | some cps =>
      have hvalid : IsValidUtf8 (percentDecodeBytes (utf8Bytes raw)) :=
        ⟨cps, (utf8DecodeList_sound hdec).1, (utf8DecodeList_sound hdec).2⟩
      simp [hvalid]
    | none =>
      have hnv := (utf8DecodeList_none_iff _).mp hdec
      simp [hnv]
  · intro henc
    have hfrom : Encoding.fromStr enc = Encoding.extension (toLowerStr enc) := by
      simp [Encoding.fromStr, henc]
    cases lang with
    | none =>
      simp only [collect_param, starParamPair, collectParamLoop, Pair.rule, Pair.children,
        Pair.text, hfrom, List.cons_append, List.nil_append]
      simp
    | some l =>
      simp only [collect_param, starParamPair, collectParamLoop, Pair.rule, Pair.children,
        Pair.text, hfrom, List.cons_append, List.nil_append]
      simp
  · rfl

/-- Witness for C5 at concrete star params: a decodable utf-8 value, an
undecodable utf-8 value, and an extension charset. -/
theorem c5_star_value_decoding_witness :
    collect_param (starParamPair "title" "UTF-8" (some "de") "T") =
      .ok ⟨"title", some (Value.compound Encoding.utf8 (some "de") "T")⟩ ∧
    collect_param (starParamPair "t" "UTF-8" none "%FF") = .error Failure.decodeError ∧
    collect_param (starParamPair "t" "GIB" none "%C0%FF") =
      .ok ⟨"t", some (Value.compound (Encoding.extension "gib") none "%C0%FF")⟩ := by
  refine ⟨?_, ?_, ?_⟩
  · rw [(c5_star_value_decoding "title" "UTF-8" (some "de") "T").1 (by decide)]
    rfl
  · rw [(c5_star_value_decoding "t" "UTF-8" none "%FF").1 (by decide)]
    rfl
  · rw [(c5_star_value_decoding "t" "GIB" none "%C0%FF").2.2.1 (by decide)]
    rfl

end Linkheader
